import Mathlib

/-!
Verification of the launch-orchestration and process-registry subsystem of
the ayon-applications repository, against its natural-language specification.

The Lean definitions below are shallow embeddings of the Python source:

- src/client/ayon_applications/manager.py
  (ApplicationLaunchContext, ApplicationManager, liveness checks, registry)
- src/client/ayon_applications/hooks.py
  (LaunchHook.class_validation and LaunchHook constructor)
- src/client/ayon_applications/process.py
  (ProcessManager variants of the hash and liveness check)

Python machine/OS effects (psutil lookups, sqlite, the filesystem) are made
explicit as state passed to the functions; exceptions are modelled with
Option or an explicit error component.
-/

namespace Ayon

/-! ### Launch arguments

ApplicationLaunchContext launch arguments are strings that may be grouped in
arbitrarily nested list/tuple containers (manager.py, module docstring of
ApplicationLaunchContext).  An argument value is a token or a container. -/

inductive Arg where
  | tok (s : String)
  | grp (l : List Arg)

mutual

/-- Maximal container-nesting depth of one argument value. -/
def Arg.depth : Arg → Nat
  | .tok _ => 0
  | .grp l => Arg.depthList l + 1

/-- Maximal container-nesting depth over a list of argument values. -/
def Arg.depthList : List Arg → Nat
  | [] => 0
  | a :: rest => Nat.max (Arg.depth a) (Arg.depthList rest)

end

mutual

/-- All tokens of one argument value, left to right. -/
def Arg.flatten : Arg → List String
  | .tok s => [s]
  | .grp l => Arg.flattenList l

/-- All tokens of a list of argument values, left to right. -/
def Arg.flattenList : List Arg → List String
  | [] => []
  | a :: rest => Arg.flatten a ++ Arg.flattenList rest

end

/-- Whether an argument value is a list/tuple/set container
(isinstance check in clear_launch_args, manager.py line 1329). -/
def Arg.isContainer : Arg → Bool
  | .tok _ => false
  | .grp _ => true

/-- One pass of the while-loop body of clear_launch_args
(manager.py lines 1327-1335): every container is unwrapped one level,
plain tokens are kept. -/
def clearPass : List Arg → List Arg
  | [] => []
  | .tok s :: rest => .tok s :: clearPass rest
  | .grp l :: rest => l ++ clearPass rest

/-- Whether some element of the argument list is a container; the loop of
clear_launch_args repeats exactly while this held during the last pass. -/
def hasContainer (args : List Arg) : Bool :=
  args.any Arg.isContainer

theorem depthList_append (l1 l2 : List Arg) :
    Arg.depthList (l1 ++ l2) =
      Nat.max (Arg.depthList l1) (Arg.depthList l2) := by
  induction l1 with
  | nil => simp [Arg.depthList]
  | cons a rest ih => simp [Arg.depthList, ih, Nat.max_assoc]

theorem clearPass_of_not_hasContainer (args : List Arg)
    (h : hasContainer args = false) : clearPass args = args := by
  induction args with
  | nil => rfl
  | cons a rest ih =>
    cases a with
    | tok s =>
      have hrest : hasContainer rest = false := by
        simpa [hasContainer, Arg.isContainer] using h
      simp [clearPass, ih hrest]
    | grp l => simp [hasContainer, Arg.isContainer] at h

theorem depthList_eq_zero_of_not_hasContainer (args : List Arg)
    (h : hasContainer args = false) : Arg.depthList args = 0 := by
  induction args with
  | nil => simp [Arg.depthList]
  | cons a rest ih =>
    cases a with
    | tok s =>
      have hrest : hasContainer rest = false := by
        simpa [hasContainer, Arg.isContainer] using h
      simp [Arg.depthList, Arg.depth, ih hrest]
    | grp l => simp [hasContainer, Arg.isContainer] at h

/-- Each pass strictly decreases the maximal depth while a container is
present; this is the termination argument for the while-loop. -/
theorem depthList_clearPass_lt (args : List Arg)
    (h : hasContainer args = true) :
    Arg.depthList (clearPass args) < Arg.depthList args := by
  induction args with
  | nil => simp [hasContainer] at h
  | cons a rest ih =>
    cases a with
    | tok s =>
      have hrest : hasContainer rest = true := by
        simpa [hasContainer, Arg.isContainer] using h
      have hlt := ih hrest
      simp only [clearPass, Arg.depthList, Arg.depth, Nat.zero_max]
      exact hlt
    | grp l =>
      simp only [clearPass, Arg.depthList, depthList_append, Arg.depth]
      cases hrest : hasContainer rest with
      | false =>
        rw [clearPass_of_not_hasContainer rest hrest,
          depthList_eq_zero_of_not_hasContainer rest hrest]
        refine Nat.max_lt.mpr ⟨?_, ?_⟩
        · exact Nat.lt_of_lt_of_le (Nat.lt_succ_self _) (Nat.le_max_left _ _)
        · exact Nat.lt_of_lt_of_le (Nat.succ_pos _) (Nat.le_max_left _ _)
      | true =>
        have hlt := ih hrest
        refine Nat.max_lt.mpr ⟨?_, ?_⟩
        · exact Nat.lt_of_lt_of_le (Nat.lt_succ_self _) (Nat.le_max_left _ _)
        · exact Nat.lt_of_lt_of_le hlt (Nat.le_max_right _ _)

/-- Shallow embedding of ApplicationLaunchContext.clear_launch_args
(manager.py lines 1304-1337): repeat the unwrap-one-level pass; stop after
the first pass that saw no container, returning that pass result. -/
def clearLaunchArgs (args : List Arg) : List Arg :=
  if h : hasContainer args = true then clearLaunchArgs (clearPass args)
  else clearPass args
termination_by Arg.depthList args
decreasing_by exact depthList_clearPass_lt args h

theorem flattenList_append (l1 l2 : List Arg) :
    Arg.flattenList (l1 ++ l2) = Arg.flattenList l1 ++ Arg.flattenList l2 := by
  induction l1 with
  | nil => simp [Arg.flattenList]
  | cons a rest ih => simp [Arg.flattenList, ih]

/-- One unwrap pass does not change the flat token sequence. -/
theorem flattenList_clearPass (args : List Arg) :
    Arg.flattenList (clearPass args) = Arg.flattenList args := by
  induction args with
  | nil => rfl
  | cons a rest ih =>
    cases a with
    | tok s => simp [clearPass, Arg.flattenList, Arg.flatten, ih]
    | grp l =>
      simp [clearPass, flattenList_append, Arg.flattenList, Arg.flatten, ih]

/-- A container-free argument list is its own flat token sequence. -/
theorem flatten_of_not_hasContainer (args : List Arg)
    (h : hasContainer args = false) :
    (Arg.flattenList args).map Arg.tok = args := by
  induction args with
  | nil => rfl
  | cons a rest ih =>
    cases a with
    | tok s =>
      have hrest : hasContainer rest = false := by
        simpa [hasContainer, Arg.isContainer] using h
      simp [Arg.flattenList, Arg.flatten, ih hrest]
    | grp l => simp [hasContainer, Arg.isContainer] at h

/-- The iterated unwrap loop computes exactly the flat token sequence. -/
theorem clearLaunchArgs_eq_flattenList (args : List Arg) :
    clearLaunchArgs args = (Arg.flattenList args).map Arg.tok := by
  generalize hn : Arg.depthList args = n
  induction n using Nat.strong_induction_on generalizing args with
  | _ n ih =>
    rw [clearLaunchArgs]
    split
    · subst hn
      rename_i h
      rw [ih (Arg.depthList (clearPass args)) (depthList_clearPass_lt args h)
          (clearPass args) rfl,
        flattenList_clearPass]
    · rename_i h
      have h0 : hasContainer args = false := by simpa using h
      rw [clearPass_of_not_hasContainer args h0]
      exact (flatten_of_not_hasContainer args h0).symm

/-! ### Launch hooks: static data of a hook class

A hook class (hooks.py, class LaunchHook) carries class-level filter sets
and an optional order.  Behavioural aspects needed by the claims are
recorded as boolean fields: the result of the overridable validate step,
whether the subclass constructor raises (abstract classes raise TypeError at
construction, so they are covered by ctorRaises as well), whether
inspect.isabstract reports the class abstract, and whether execute raises
when called. -/

structure HookClass where
  name : String
  order : Option Int
  platforms : List String
  hosts : List String
  appGroups : List String
  appNames : List String
  launchTypes : List String
  validateResult : Bool
  ctorRaises : Bool
  isAbstract : Bool
  execRaises : Bool
deriving DecidableEq

/-- The read-only context values class_validation consults
(launch context properties, manager.py lines 1106-1116; platformName is the
value of platform.system().lower()). -/
structure Ctx where
  platformName : String
  hostName : String
  appGroupName : String
  appName : String
  launchType : String
deriving DecidableEq

/-- Shallow embedding of LaunchHook.class_validation
(hooks.py lines 51-88): every non-empty filter set is an allow-list that
must contain the current value; platforms are compared lower-cased. -/
def classValidation (cls : HookClass) (ctx : Ctx) : Bool :=
  if !cls.platforms.isEmpty
      && !((cls.platforms.map String.toLower).contains ctx.platformName) then
    false
  else if !cls.hosts.isEmpty && !(cls.hosts.contains ctx.hostName) then
    false
  else if !cls.appGroups.isEmpty
      && !(cls.appGroups.contains ctx.appGroupName) then
    false
  else if !cls.appNames.isEmpty && !(cls.appNames.contains ctx.appName) then
    false
  else if !cls.launchTypes.isEmpty
      && !(cls.launchTypes.contains ctx.launchType) then
    false
  else
    true

/-- A constructed hook instance: the constructor (hooks.py lines 36-49)
stores the class data and computes is_valid once, as class_validation
followed, when that held, by the overridable validate step. -/
structure Hook where
  cls : HookClass
  isValid : Bool
deriving DecidableEq

/-- Shallow embedding of LaunchHook.__init__ (hooks.py lines 36-49). -/
def initHook (cls : HookClass) (ctx : Ctx) : Hook :=
  { cls := cls
    isValid := classValidation cls ctx && cls.validateResult }

/-- Body of the discovery loop over the classes of one kind
(manager.py lines 1058-1088).  For every class the constructor is called
(hook = klass(self)); when the constructor completes an instance exists.
Instances whose is_valid is false, or which inspect.isabstract reports
abstract, are then skipped; the rest survive in discovery order.  Returns
(surviving hook instances, classes for which an instance was constructed),
both in discovery order. -/
def processClasses (ctx : Ctx) : List HookClass → List Hook × List HookClass
  | [] => ([], [])
  | cls :: rest =>
    let r := processClasses ctx rest
    if cls.ctorRaises then r
    else
      let hook := initHook cls ctx
      if !hook.isValid then (r.1, cls :: r.2)
      else if cls.isAbstract then (r.1, cls :: r.2)
      else (hook :: r.1, cls :: r.2)

/-- Sort key of the Python sorted call (manager.py line 1091); it is only
applied to hooks whose order is set. -/
def hookOrder (h : Hook) : Int :=
  h.cls.order.getD 0

/-- Insert a hook after all already-placed hooks whose key is not larger. -/
def insertHook (h : Hook) : List Hook → List Hook
  | [] => [h]
  | x :: rest =>
    if hookOrder x ≤ hookOrder h then x :: insertHook h rest
    else h :: x :: rest

/-- Stable ascending sort by the order key, as the Python stable sorted
call: hooks are processed in discovery order and each is placed after every
earlier hook with a key less than or equal to its own. -/
def sortHooksByOrder (l : List Hook) : List Hook :=
  l.foldl (fun acc h => insertHook h acc) []

/-- Ordering of one group of discovered hooks (manager.py lines 1089-1094):
hooks that declare an order, stably sorted ascending by it, followed by the
hooks without declared order in discovery order. -/
def orderHooks (survivors : List Hook) : List Hook :=
  sortHooksByOrder (survivors.filter (fun h => h.cls.order.isSome))
    ++ survivors.filter (fun h => h.cls.order.isNone)

/-- The prelaunch list discover_launch_hooks computes for given classes. -/
def discoveredPre (ctx : Ctx) (preClasses : List HookClass) : List Hook :=
  orderHooks (processClasses ctx preClasses).1

/-- The postlaunch list discover_launch_hooks computes for given classes. -/
def discoveredPost (ctx : Ctx) (postClasses : List HookClass) : List Hook :=
  orderHooks (processClasses ctx postClasses).1

/-! ### Launch context execution state

The mutable state of ApplicationLaunchContext relevant to the claims
(constructor, manager.py lines 895-899), together with observable traces:
execute() invocations in order, warnings logged, pids spawned by
_run_process and pids of the ProcessRecords it stores.  Launch arguments
are carried so that launch can flatten them as the source does. -/

structure LaunchState where
  launchArgs : List Arg := []
  prelaunchHooks : Option (List Hook) := none
  postlaunchHooks : Option (List Hook) := none
  process : Option Nat := none
  prelaunchHooksExecuted : Bool := false
  executed : List String := []
  warnings : List String := []
  spawnedPids : List Nat := []
  storedRecords : List Nat := []

def initialLaunchState : LaunchState := {}

/-- Shallow embedding of discover_launch_hooks (manager.py 1018-1104): when
either hook list is already set and force is not given nothing changes
(an info message only); otherwise both lists are rebuilt from the classes
found on the hook paths. -/
def discoverLaunchHooks (ctx : Ctx) (preClasses postClasses : List HookClass)
    (force : Bool) (s : LaunchState) : LaunchState :=
  if (s.prelaunchHooks.isSome || s.postlaunchHooks.isSome) && !force then s
  else
    { s with
      prelaunchHooks := some (discoveredPre ctx preClasses)
      postlaunchHooks := some (discoveredPost ctx postClasses) }

/-- The prelaunch execution loop (manager.py 1242-1246): each execute
invocation is recorded; an exception stops the loop and propagates, carried
here as the error component holding the raising hook name. -/
def runHooksPre : List Hook → LaunchState → LaunchState × Option String
  | [], s => (s, none)
  | h :: rest, s =>
    let s1 := { s with executed := s.executed ++ [h.cls.name] }
    if h.cls.execRaises then (s1, some h.cls.name)
    else runHooksPre rest s1

/-- The postlaunch execution loop (manager.py 1284-1298): every hook is
invoked; an exception is caught and logged as a warning and the loop
continues with the next hook. -/
def runPostHooks : List Hook → LaunchState → LaunchState
  | [], s => s
  | h :: rest, s =>
    let s1 := { s with executed := s.executed ++ [h.cls.name] }
    let s2 :=
      if h.cls.execRaises
      then { s1 with warnings := s1.warnings ++ [h.cls.name] }
      else s1
    runPostHooks rest s2

/-- Shallow embedding of run_prelaunch_hooks (manager.py 1228-1247): the
idempotence guard warns and returns when the hooks already ran; otherwise
hooks are discovered if needed and executed in order, and only after all of
them completed is the guard flag set. -/
def runPrelaunchHooks (ctx : Ctx) (preClasses postClasses : List HookClass)
    (s : LaunchState) : LaunchState × Option String :=
  if s.prelaunchHooksExecuted then
    ({ s with warnings := s.warnings ++ ["prelaunch-already-executed"] },
      none)
  else
    let s1 := discoverLaunchHooks ctx preClasses postClasses false s
    let r := runHooksPre (s1.prelaunchHooks.getD []) s1
    match r.2 with
    | some e => (r.1, some e)
    | none => ({ r.1 with prelaunchHooksExecuted := true }, none)

/-- Observable effect of _run_process on the direct-spawn branch
(manager.py 1122-1139 and _execute_with_stdout 1339-1375): a process is
spawned and a ProcessRecord with its pid is stored; the pid is returned. -/
def runProcess (s : LaunchState) : LaunchState × Nat :=
  let pid := s.spawnedPids.length + 1
  ({ s with
      spawnedPids := s.spawnedPids ++ [pid]
      storedRecords := s.storedRecords ++ [pid] }, pid)

/-- Shallow embedding of launch (manager.py 1249-1302): guard warning and
returning no handle on a second call; prelaunch hooks if not yet run, their
exception propagating with nothing spawned; argument flattening; the spawn;
postlaunch hooks with per-hook error containment; finally the process
handle is returned. -/
def launch (ctx : Ctx) (preClasses postClasses : List HookClass)
    (s : LaunchState) : LaunchState × Option String × Option Nat :=
  if s.process.isSome then
    ({ s with warnings := s.warnings ++ ["already-launched"] }, none, none)
  else
    let r :=
      if !s.prelaunchHooksExecuted
      then runPrelaunchHooks ctx preClasses postClasses s
      else (s, none)
    match r.2 with
    | some e => (r.1, some e, none)
    | none =>
      let s1 := { r.1 with launchArgs := clearLaunchArgs r.1.launchArgs }
      let r2 := runProcess s1
      let s2 := { r2.1 with process := some r2.2 }
      let s3 := runPostHooks (s2.postlaunchHooks.getD []) s2
      (s3, none, some r2.2)

/-! ### Liveness verification, psutil tier

The OS state psutil exposes is made explicit.  Process times are modelled
as rationals; the source compares floats with an absolute tolerance of 1.0
and the comparison logic, not float rounding, is what the claims are
about. -/

/-- Observable data of a live process; a none field models the
corresponding psutil accessor raising or yielding nothing. -/
structure PsProc where
  createTime : Option ℚ
  exePath : Option String
  procName : Option String
  cmdline : List String

/-- Result of psutil.Process(pid): the process may not exist
(NoSuchProcess or ZombieProcess, both caught), the lookup itself may raise
something else (e.g. AccessDenied, which _is_process_running_psutils does
not catch), or a process handle is obtained. -/
inductive PsLookup where
  | noSuch
  | raises
  | ok (p : PsProc)

/-- The OS inspection capabilities the checks consult; pidExists none
models psutil.pid_exists itself raising. -/
structure PsSys where
  lookup : Nat → PsLookup
  pidExists : Nat → Option Bool

/-- os.path.basename for posix paths: the part after the last slash. -/
def basename (s : String) : String :=
  (s.splitOn "/").getLastD s

/-- The candidate set _is_process_running_psutils builds (manager.py lines
579-593): lower-cased basename of the resolved executable path, lower-cased
process name, lower-cased basename of the first command-line token. -/
def exeCandidates (p : PsProc) : List String :=
  (match p.exePath with
    | some e => if e = "" then [] else [(basename e).toLower]
    | none => []) ++
  (match p.procName with
    | some n => if n = "" then [] else [n.toLower]
    | none => []) ++
  (match p.cmdline.head? with
    | some c => [(basename c).toLower]
    | none => [])

/-- The executable comparison closing _is_process_running_psutils
(manager.py lines 574-595): with no recorded executable the process merely
has to exist; otherwise its lower-cased name must be among the candidates. -/
def finalExeCheck (proc : PsProc) (exe : Option String) : Bool :=
  match exe with
  | none => true
  | some e => if e = "" then true else (exeCandidates proc).contains e.toLower

/-- Shallow embedding of ApplicationManager._is_process_running_psutils
(manager.py lines 540-595; the start-time logic is shared verbatim with
ProcessManager._is_process_running_psutils, process.py lines 348-407).
A missing process is not running; when a start time was recorded it must
match the OS creation time within the 1.0 tolerance, an unobtainable
creation time being conservatively not running; then the executable test.
The returned none models the call raising: the psutil.Process lookup is the
only uncaught exception source in the body. -/
def isProcessRunningPsutils (sys : PsSys) (pid : Nat) (exe : Option String)
    (startTime : Option ℚ) : Option Bool :=
  match sys.lookup pid with
  | .noSuch => some false
  | .raises => none
  | .ok proc =>
    match startTime with
    | some st =>
      match proc.createTime with
      | none => some false
      | some ct =>
        if 1 < |ct - st| then some false
        else some (finalExeCheck proc exe)
    | none => some (finalExeCheck proc exe)

/-- An entry of the batch liveness input (ProcessIdTriplet, manager.py
lines 74-78). -/
structure ProcessIdTriplet where
  pid : Nat
  executable : Option String
  startTime : Option ℚ

/-- Per-entry body of the loop of _check_processes_running_psutil
(manager.py lines 659-670): the rich check; when it raises, the
psutil.pid_exists fallback; when that raises as well, not running. -/
def checkSingle (sys : PsSys) (t : ProcessIdTriplet) : Bool :=
  match isProcessRunningPsutils sys t.pid t.executable t.startTime with
  | some b => b
  | none =>
    match sys.pidExists t.pid with
    | some b => b
    | none => false

/-- Shallow embedding of ApplicationManager._check_processes_running_psutil
(manager.py lines 644-671): one (pid, running) pair is appended per
triplet, in input order. -/
def checkProcessesRunningPsutil (sys : PsSys)
    (triplets : List ProcessIdTriplet) : List (Nat × Bool) :=
  triplets.map (fun t => (t.pid, checkSingle sys t))

/-! ### Process registry (ApplicationManager side of manager.py) -/

/-- Python value held in the args field of a ProcessInfo: a string or a
possibly nested list; the enclosing Option models None. -/
inductive PyArgsV where
  | str (s : String)
  | lst (l : List Arg)

mutual

/-- Python repr of one argument element (string quoting written with
escaped quote characters). -/
def pyRepr : Arg → String
  | .tok s => "\x27" ++ s ++ "\x27"
  | .grp l => "[" ++ pyReprList l ++ "]"

/-- Python repr of a list body: elements joined by a comma and space. -/
def pyReprList : List Arg → String
  | [] => ""
  | [a] => pyRepr a
  | a :: rest => pyRepr a ++ ", " ++ pyReprList rest

end

/-- Python str() of one argument element: a string is itself, a container
renders as its repr. -/
def pyStrOfArg : Arg → String
  | .tok s => s
  | .grp l => pyRepr (.grp l)

/-- Shallow embedding of
ApplicationManager._extract_executable_name_from_args (manager.py lines
160-193): falsy args give None; a string gives its basename; a non-empty
list takes its first element, unwrapped one more level when it is itself a
non-empty container, and gives the basename of its str(). -/
def extractExecutableNameFromArgs : Option PyArgsV → Option String
  | none => none
  | some (.str s) => if s = "" then none else some (basename s)
  | some (.lst []) => none
  | some (.lst (a :: _)) =>
    let first :=
      match a with
      | .grp (b :: _) => b
      | x => x
    some (basename (pyStrOfArg first))

/-- Shallow embedding of the manager.py ProcessInfo dataclass (lines
47-71). -/
structure PyProcessInfo where
  name : String
  args : Option PyArgsV
  env : List (String × String)
  cwd : String
  pid : Option Nat
  active : Bool := false
  output : Option String := none
  startTime : Option ℚ := none
  createdAt : Option String := none
  siteId : Option String := none

/-- Python f-string rendering of the optional pid (None renders as the
text None). -/
def pyStrOfOptNat : Option Nat → String
  | some n => toString n
  | none => "None"

/-- The concatenated key string SHA-256 is applied to in
ApplicationManager.get_process_info_hash (manager.py lines 141-158): name,
pid, extracted executable name (empty when absent) and start time (empty
when absent), with no delimiters.  A present start time is rendered through
Rat.toString as a stand-in for the Python float format; the claims only
exercise the absent case. -/
def processInfoKey (p : PyProcessInfo) : String :=
  let exe := (extractExecutableNameFromArgs p.args).getD ""
  let start :=
    match p.startTime with
    | some st => toString st
    | none => ""
  p.name ++ pyStrOfOptNat p.pid ++ exe ++ start

/-- Hash of the process information.  The source returns the SHA-256 hex
digest of the key; SHA-256 is a fixed deterministic function and the claims
depend only on which keys coincide, so the digest step is modelled as the
identity on the key string: equal keys give equal hashes under any
function, and a key collision here is the same collision under SHA-256 in
the source. -/
def getProcessInfoHash (p : PyProcessInfo) : String :=
  processInfoKey p

/-- The registry storage: the sqlite table keyed by the hash primary key,
plus the output-capture files present on disk. -/
structure Registry where
  rows : List (String × PyProcessInfo)
  files : List String

/-- Shallow embedding of ApplicationManager.store_process_info (manager.py
lines 195-233): without a pid only a warning is logged and nothing is
stored; otherwise INSERT OR REPLACE upserts the row keyed by the hash. -/
def storeProcessInfo (reg : Registry) (p : PyProcessInfo) : Registry :=
  match p.pid with
  | none => reg
  | some _ =>
    let h := getProcessInfoHash p
    { reg with rows := reg.rows.filter (fun r => r.1 != h) ++ [(h, p)] }

/-- Shallow embedding of ApplicationManager.get_process_info (manager.py
lines 235-266): point lookup by hash. -/
def getProcessInfo (reg : Registry) (h : String) : Option PyProcessInfo :=
  (reg.rows.find? (fun r => r.1 == h)).map (fun r => r.2)

/-- Shallow embedding of ApplicationManager.delete_process_info
(manager.py lines 490-507): the row with the hash is deleted and a rowcount
flag reported.  The registry files are returned unchanged: the source
touches only the database row. -/
def deleteProcessInfo (reg : Registry) (h : String) : Registry × Bool :=
  let newRows := reg.rows.filter (fun r => r.1 != h)
  ({ reg with rows := newRows }, decide (newRows.length < reg.rows.length))

/-- The active flag get_all_process_info computes for one stored record
(manager.py lines 436-488, psutil tier): records without pid keep the
dataclass default False; the rest get the batched liveness result, which is
the per-entry check of their (pid, extracted executable, start time)
triplet. -/
def computeActive (sys : PsSys) (p : PyProcessInfo) : Bool :=
  match p.pid with
  | none => false
  | some pid =>
    checkSingle sys
      { pid := pid
        executable := extractExecutableNameFromArgs p.args
        startTime := p.startTime }

/-- Shallow embedding of get_all_process_info (manager.py lines 436-488):
all rows with the active flag computed.  Row order (created_at descending
in the source) does not affect the claims and is kept as stored. -/
def getAllProcessInfo (sys : PsSys) (reg : Registry) : List PyProcessInfo :=
  reg.rows.map (fun r => { r.2 with active := computeActive sys r.2 })

/-- Shallow embedding of ApplicationManager.delete_inactive_processes
(manager.py lines 509-538): the hashes of records whose computed active
flag is false are collected and their rows deleted in one statement, the
rowcount returned.  The registry files are returned unchanged: the source
touches only database rows. -/
def deleteInactiveProcesses (sys : PsSys) (reg : Registry) :
    Registry × Nat :=
  let inactiveHashes :=
    ((getAllProcessInfo sys reg).filter (fun p => !p.active)).map
      getProcessInfoHash
  if inactiveHashes.isEmpty then (reg, 0)
  else
    let newRows :=
      reg.rows.filter (fun r => !(inactiveHashes.contains r.1))
    ({ reg with rows := newRows }, reg.rows.length - newRows.length)

/-! ### Concrete values used by witnesses and counterexamples -/

/-- A concrete launch context: a local launch on linux. -/
def ctx0 : Ctx :=
  { platformName := "linux"
    hostName := "hostA"
    appGroupName := "groupA"
    appName := "appA"
    launchType := "local" }

/-- A hook class restricted to the host named hostB, hence filtered out
under ctx0 (whose host is hostA); its constructor completes normally. -/
def filteredCls : HookClass :=
  { name := "HostBOnlyHook"
    order := none
    platforms := []
    hosts := ["hostB"]
    appGroups := []
    appNames := []
    launchTypes := []
    validateResult := true
    ctorRaises := false
    isAbstract := false
    execRaises := false }

/-- An unconstrained hook class with order 1. -/
def clsO1 : HookClass :=
  { name := "hookO1"
    order := some 1
    platforms := []
    hosts := []
    appGroups := []
    appNames := []
    launchTypes := []
    validateResult := true
    ctorRaises := false
    isAbstract := false
    execRaises := false }

/-- An unconstrained hook class with order 2. -/
def clsO2 : HookClass :=
  { clsO1 with name := "hookO2", order := some 2 }

/-- An unconstrained hook class without declared order. -/
def clsU : HookClass :=
  { clsO1 with name := "hookU", order := none }

/-- An unconstrained hook class whose execute raises. -/
def clsBad : HookClass :=
  { clsO1 with name := "hookBad", order := none, execRaises := true }

/-- A live process with creation time 10 and nothing else observable. -/
def psProcCE : PsProc :=
  { createTime := some 10
    exePath := none
    procName := none
    cmdline := [] }

/-- An OS with exactly one live process: pid 5, created at time 10. -/
def sysCE : PsSys :=
  { lookup := fun pid => if pid = 5 then .ok psProcCE else .noSuch
    pidExists := fun _ => some false }

/-- An OS on which every rich per-process lookup raises while the bare
pid_exists probe succeeds and reports the pid occupied. -/
def sysC8 : PsSys :=
  { lookup := fun _ => .raises
    pidExists := fun _ => some true }

/-- A stored record whose process (pid 5) is alive under sysCE. -/
def recActive : PyProcessInfo :=
  { name := "appA"
    args := none
    env := []
    cwd := "/w"
    pid := some 5
    output := some "outA.txt" }

/-- A stored record whose process (pid 6) is gone under sysCE. -/
def recDead : PyProcessInfo :=
  { name := "appB"
    args := none
    env := []
    cwd := "/w"
    pid := some 6
    output := some "outB.txt" }

/-- A registry holding both records and both of their output files. -/
def regC9 : Registry :=
  { rows :=
      [(getProcessInfoHash recActive, recActive),
        (getProcessInfoHash recDead, recDead)]
    files := ["outA.txt", "outB.txt"] }

/-- Record named app1 with pid 2, no args, no start time. -/
def procInfoA : PyProcessInfo :=
  { name := "app1", args := none, env := [], cwd := "/w", pid := some 2 }

/-- Record named app with pid 12, no args, no start time. -/
def procInfoB : PyProcessInfo :=
  { name := "app", args := none, env := [], cwd := "/w", pid := some 12 }

/-- An empty registry with no rows and no files. -/
def emptyRegistry : Registry := { rows := [], files := [] }

/-! ### Theorems -/

/-- C1: clear_launch_args flattens an arbitrarily nested argument list to
exactly its left-to-right token sequence, so an already-flat list is
returned unchanged and empty containers are dropped without error; the
second conjunct evaluates the spec example [[a, [b, c]], d, [e, f]]. -/
theorem claim_C1 :
    (∀ args : List Arg,
      clearLaunchArgs args = (Arg.flattenList args).map Arg.tok) ∧
    clearLaunchArgs
        [.grp [.tok "a", .grp [.tok "b", .tok "c"]], .tok "d",
          .grp [.tok "e", .tok "f"]] =
      [.tok "a", .tok "b", .tok "c", .tok "d", .tok "e", .tok "f"] := by
  refine ⟨clearLaunchArgs_eq_flattenList, ?_⟩
  rw [clearLaunchArgs_eq_flattenList]
  rfl

theorem clearLaunchArgs_nil : clearLaunchArgs [] = [] := by
  rw [clearLaunchArgs_eq_flattenList]
  rfl

theorem runHooksPre_ok (hooks : List Hook) (s : LaunchState)
    (h : ∀ x ∈ hooks, x.cls.execRaises = false) :
    runHooksPre hooks s =
      ({ s with executed := s.executed ++ hooks.map (fun x => x.cls.name) },
        none) := by
  induction hooks generalizing s with
  | nil => simp [runHooksPre]
  | cons a rest ih =>
    have ha : a.cls.execRaises = false := h a (List.mem_cons_self a rest)
    have hr : ∀ x ∈ rest, x.cls.execRaises = false :=
      fun x hx => h x (List.mem_cons_of_mem a hx)
    simp only [runHooksPre, ha]
    rw [ih _ hr]
    simp

theorem runHooksPre_raise (l1 : List Hook) (bad : Hook) (l2 : List Hook)
    (s : LaunchState)
    (h1 : ∀ x ∈ l1, x.cls.execRaises = false)
    (hbad : bad.cls.execRaises = true) :
    runHooksPre (l1 ++ bad :: l2) s =
      ({ s with executed := s.executed ++ l1.map (fun x => x.cls.name)
          ++ [bad.cls.name] }, some bad.cls.name) := by
  induction l1 generalizing s with
  | nil => simp [runHooksPre, hbad]
  | cons a rest ih =>
    have ha : a.cls.execRaises = false := h1 a (List.mem_cons_self a rest)
    simp only [List.cons_append, runHooksPre, ha, Bool.false_eq_true,
      if_false, List.append_eq]
    rw [ih _ (fun x hx => h1 x (List.mem_cons_of_mem a hx))]
    simp

theorem runPostHooks_spec (hooks : List Hook) (s : LaunchState) :
    runPostHooks hooks s =
      { s with
        executed := s.executed ++ hooks.map (fun x => x.cls.name)
        warnings := s.warnings ++
          (hooks.filter (fun x => x.cls.execRaises)).map
            (fun x => x.cls.name) } := by
  induction hooks generalizing s with
  | nil => simp [runPostHooks]
  | cons a rest ih =>
    by_cases ha : a.cls.execRaises = true
    · simp only [runPostHooks, ha, if_true]
      rw [ih]
      simp [List.filter_cons, ha]
    · have ha2 : a.cls.execRaises = false := by
        cases hv : a.cls.execRaises
        · rfl
        · exact absurd hv ha
      simp only [runPostHooks, ha2]
      rw [ih]
      simp [List.filter_cons, ha2]

theorem discoverLaunchHooks_fresh (ctx : Ctx)
    (preC postC : List HookClass) (s : LaunchState)
    (hpre : s.prelaunchHooks = none) (hpost : s.postlaunchHooks = none) :
    discoverLaunchHooks ctx preC postC false s =
      { s with
        prelaunchHooks := some (discoveredPre ctx preC)
        postlaunchHooks := some (discoveredPost ctx postC) } := by
  simp [discoverLaunchHooks, hpre, hpost]

theorem runPrelaunchHooks_fresh_ok (ctx : Ctx)
    (preC postC : List HookClass) (s : LaunchState)
    (hexec : s.prelaunchHooksExecuted = false)
    (hpre : s.prelaunchHooks = none) (hpost : s.postlaunchHooks = none)
    (hclean : ∀ x ∈ discoveredPre ctx preC, x.cls.execRaises = false) :
    runPrelaunchHooks ctx preC postC s =
      ({ s with
          prelaunchHooks := some (discoveredPre ctx preC)
          postlaunchHooks := some (discoveredPost ctx postC)
          prelaunchHooksExecuted := true
          executed := s.executed
            ++ (discoveredPre ctx preC).map (fun x => x.cls.name) },
        none) := by
  simp only [runPrelaunchHooks, hexec, Bool.false_eq_true, if_false]
  rw [discoverLaunchHooks_fresh ctx preC postC s hpre hpost]
  rw [runHooksPre_ok _ _ (by simpa using hclean)]
  simp

theorem runPrelaunchHooks_fresh_raise (ctx : Ctx)
    (preC postC : List HookClass) (s : LaunchState)
    (hexec : s.prelaunchHooksExecuted = false)
    (hpre : s.prelaunchHooks = none) (hpost : s.postlaunchHooks = none)
    (l1 : List Hook) (bad : Hook) (l2 : List Hook)
    (hsplit : discoveredPre ctx preC = l1 ++ bad :: l2)
    (h1 : ∀ x ∈ l1, x.cls.execRaises = false)
    (hbad : bad.cls.execRaises = true) :
    runPrelaunchHooks ctx preC postC s =
      ({ s with
          prelaunchHooks := some (discoveredPre ctx preC)
          postlaunchHooks := some (discoveredPost ctx postC)
          executed := s.executed ++ l1.map (fun x => x.cls.name)
            ++ [bad.cls.name] },
        some bad.cls.name) := by
  simp only [runPrelaunchHooks, hexec, Bool.false_eq_true, if_false]
  rw [discoverLaunchHooks_fresh ctx preC postC s hpre hpost]
  simp only [Option.getD_some]
  rw [hsplit, runHooksPre_raise l1 bad l2 _ h1 hbad]
  simp [hsplit, hexec]

theorem runPrelaunchHooks_again (ctx : Ctx)
    (preC postC : List HookClass) (s : LaunchState)
    (hexec : s.prelaunchHooksExecuted = true) :
    runPrelaunchHooks ctx preC postC s =
      ({ s with
          warnings := s.warnings ++ ["prelaunch-already-executed"] },
        none) := by
  simp [runPrelaunchHooks, hexec]

theorem launch_again (ctx : Ctx) (preC postC : List HookClass)
    (s : LaunchState) (p : Nat) (hproc : s.process = some p) :
    launch ctx preC postC s =
      ({ s with warnings := s.warnings ++ ["already-launched"] },
        none, none) := by
  simp [launch, hproc]

theorem launch_fresh_ok (ctx : Ctx) (preC postC : List HookClass)
    (hclean : ∀ x ∈ discoveredPre ctx preC, x.cls.execRaises = false) :
    launch ctx preC postC initialLaunchState =
      ({ launchArgs := []
         prelaunchHooks := some (discoveredPre ctx preC)
         postlaunchHooks := some (discoveredPost ctx postC)
         process := some 1
         prelaunchHooksExecuted := true
         executed := (discoveredPre ctx preC).map (fun x => x.cls.name)
           ++ (discoveredPost ctx postC).map (fun x => x.cls.name)
         warnings := ((discoveredPost ctx postC).filter
           (fun x => x.cls.execRaises)).map (fun x => x.cls.name)
         spawnedPids := [1]
         storedRecords := [1] }, none, some 1) := by
  simp only [launch, initialLaunchState]
  rw [runPrelaunchHooks_fresh_ok ctx preC postC _ rfl rfl rfl hclean]
  simp only [runProcess, clearLaunchArgs_nil]
  rw [runPostHooks_spec]
  simp [clearLaunchArgs_nil]

theorem launch_fresh_raise (ctx : Ctx) (preC postC : List HookClass)
    (l1 : List Hook) (bad : Hook) (l2 : List Hook)
    (hsplit : discoveredPre ctx preC = l1 ++ bad :: l2)
    (h1 : ∀ x ∈ l1, x.cls.execRaises = false)
    (hbad : bad.cls.execRaises = true) :
    launch ctx preC postC initialLaunchState =
      ({ launchArgs := []
         prelaunchHooks := some (discoveredPre ctx preC)
         postlaunchHooks := some (discoveredPost ctx postC)
         process := none
         prelaunchHooksExecuted := false
         executed := l1.map (fun x => x.cls.name) ++ [bad.cls.name]
         warnings := []
         spawnedPids := []
         storedRecords := [] }, some bad.cls.name, none) := by
  simp only [launch, initialLaunchState]
  rw [runPrelaunchHooks_fresh_raise ctx preC postC _ rfl rfl rfl
    l1 bad l2 hsplit h1 hbad]
  simp

/-- C2: with a prelaunch pipeline that completes without raising, a second
run_prelaunch_hooks call only warns and executes no hook again; the first
launch call returns the live process handle having spawned exactly one
process; a second launch call warns, returns no handle, executes no hook
and spawns nothing further. -/
theorem claim_C2 (ctx : Ctx) (preC postC : List HookClass)
    (hclean : ∀ x ∈ discoveredPre ctx preC, x.cls.execRaises = false) :
    (runPrelaunchHooks ctx preC postC
        (runPrelaunchHooks ctx preC postC initialLaunchState).1 =
      ({ (runPrelaunchHooks ctx preC postC initialLaunchState).1 with
          warnings := (runPrelaunchHooks ctx preC postC
              initialLaunchState).1.warnings
            ++ ["prelaunch-already-executed"] }, none)) ∧
    ((runPrelaunchHooks ctx preC postC
        (runPrelaunchHooks ctx preC postC initialLaunchState).1).1.executed =
      (runPrelaunchHooks ctx preC postC initialLaunchState).1.executed) ∧
    ((launch ctx preC postC initialLaunchState).2.2 = some 1) ∧
    ((launch ctx preC postC initialLaunchState).1.spawnedPids = [1]) ∧
    ((launch ctx preC postC
        (launch ctx preC postC initialLaunchState).1).2.2 = none) ∧
    ((launch ctx preC postC
        (launch ctx preC postC initialLaunchState).1).1.spawnedPids = [1]) ∧
    ((launch ctx preC postC
        (launch ctx preC postC initialLaunchState).1).1.executed =
      (launch ctx preC postC initialLaunchState).1.executed) ∧
    ((launch ctx preC postC
        (launch ctx preC postC initialLaunchState).1).1.warnings =
      (launch ctx preC postC initialLaunchState).1.warnings
        ++ ["already-launched"]) := by
  have hrun := runPrelaunchHooks_fresh_ok ctx preC postC initialLaunchState
    rfl rfl rfl hclean
  have hl := launch_fresh_ok ctx preC postC hclean
  have hagain := runPrelaunchHooks_again ctx preC postC
    (runPrelaunchHooks ctx preC postC initialLaunchState).1 (by rw [hrun])
  have hlagain := launch_again ctx preC postC
    (launch ctx preC postC initialLaunchState).1 1 (by rw [hl])
  exact ⟨hagain, by simp [hagain], by simp [hl], by simp [hl],
    by simp [hlagain], by rw [hlagain]; simp [hl], by simp [hlagain],
    by simp [hlagain]⟩

/-- Witness for C2: concrete context, no hook classes. -/
theorem claim_C2_witness :
    (launch ctx0 [] [] initialLaunchState).2.2 = some 1 ∧
    (launch ctx0 [] []
      (launch ctx0 [] [] initialLaunchState).1).2.2 = none := by
  have h := claim_C2 ctx0 [] [] (by decide)
  exact ⟨h.2.2.1, h.2.2.2.2.1⟩

/-- C5: when a prelaunch hook raises during launch, the error propagates
unmodified out of launch and out of run_prelaunch_hooks, no process is
spawned, prelaunch hooks after the raising one are not run, and no
ProcessRecord is stored. -/
theorem claim_C5 (ctx : Ctx) (preC postC : List HookClass)
    (l1 : List Hook) (bad : Hook) (l2 : List Hook)
    (hsplit : discoveredPre ctx preC = l1 ++ bad :: l2)
    (h1 : ∀ x ∈ l1, x.cls.execRaises = false)
    (hbad : bad.cls.execRaises = true) :
    (launch ctx preC postC initialLaunchState).2.1 = some bad.cls.name ∧
    (launch ctx preC postC initialLaunchState).2.2 = none ∧
    (launch ctx preC postC initialLaunchState).1.spawnedPids = [] ∧
    (launch ctx preC postC initialLaunchState).1.storedRecords = [] ∧
    (launch ctx preC postC initialLaunchState).1.executed =
      l1.map (fun x => x.cls.name) ++ [bad.cls.name] ∧
    (runPrelaunchHooks ctx preC postC initialLaunchState).2 =
      some bad.cls.name := by
  have hl := launch_fresh_raise ctx preC postC l1 bad l2 hsplit h1 hbad
  have hr := runPrelaunchHooks_fresh_raise ctx preC postC initialLaunchState
    rfl rfl rfl l1 bad l2 hsplit h1 hbad
  exact ⟨by simp [hl], by simp [hl], by simp [hl], by simp [hl],
    by simp [hl], by simp [hr]⟩

/-- Witness for C5: one raising prelaunch hook class. -/
theorem claim_C5_witness :
    (launch ctx0 [clsBad] [] initialLaunchState).2.1 = some "hookBad" ∧
    (launch ctx0 [clsBad] [] initialLaunchState).1.storedRecords = [] := by
  have h := claim_C5 ctx0 [clsBad] [] [] (initHook clsBad ctx0) []
    (by decide) (by decide) (by decide)
  exact ⟨h.1, h.2.2.2.1⟩

/-- C6: when a postlaunch hook raises during launch, the error is caught
and logged as a warning, every postlaunch hook is still invoked in order
after the prelaunch ones, and launch still returns the spawned process
handle. -/
theorem claim_C6 (ctx : Ctx) (preC postC : List HookClass)
    (hclean : ∀ x ∈ discoveredPre ctx preC, x.cls.execRaises = false)
    (bad : Hook) (hmem : bad ∈ discoveredPost ctx postC)
    (hbad : bad.cls.execRaises = true) :
    (launch ctx preC postC initialLaunchState).2.1 = none ∧
    (launch ctx preC postC initialLaunchState).2.2 = some 1 ∧
    (launch ctx preC postC initialLaunchState).1.executed =
      (discoveredPre ctx preC).map (fun x => x.cls.name)
        ++ (discoveredPost ctx postC).map (fun x => x.cls.name) ∧
    bad.cls.name ∈ (launch ctx preC postC initialLaunchState).1.warnings := by
  have hl := launch_fresh_ok ctx preC postC hclean
  refine ⟨by simp [hl], by simp [hl], by simp [hl], ?_⟩
  rw [hl]
  exact List.mem_map_of_mem _ (List.mem_filter.mpr ⟨hmem, hbad⟩)

/-- Witness for C6: the first of two postlaunch hooks raises; the second
still executes and the handle is returned. -/
theorem claim_C6_witness :
    (launch ctx0 [] [clsBad, clsU] initialLaunchState).2.2 = some 1 ∧
    (launch ctx0 [] [clsBad, clsU] initialLaunchState).1.executed =
      ["hookBad", "hookU"] := by
  have h := claim_C6 ctx0 [] [clsBad, clsU] (by decide)
    (initHook clsBad ctx0) (by decide) (by decide)
  refine ⟨h.2.1, ?_⟩
  rw [h.2.2.1]
  rfl

theorem mem_insertHook {x h : Hook} {l : List Hook} :
    x ∈ insertHook h l ↔ x = h ∨ x ∈ l := by
  induction l with
  | nil => simp [insertHook]
  | cons a rest ih =>
    simp only [insertHook]
    by_cases hc : hookOrder a ≤ hookOrder h
    · simp only [if_pos hc, List.mem_cons, ih]
      tauto
    · simp only [if_neg hc, List.mem_cons]

theorem mem_sortHooksByOrder {x : Hook} {l : List Hook} :
    x ∈ sortHooksByOrder l ↔ x ∈ l := by
  have main : ∀ acc : List Hook,
      (x ∈ l.foldl (fun acc h => insertHook h acc) acc ↔
        x ∈ acc ∨ x ∈ l) := by
    induction l with
    | nil => intro acc; simp
    | cons a rest ih =>
      intro acc
      simp only [List.foldl_cons]
      rw [ih]
      simp only [mem_insertHook, List.mem_cons]
      tauto
  rw [sortHooksByOrder, main []]
  simp

theorem mem_orderHooks {x : Hook} {l : List Hook}
    (h : x ∈ orderHooks l) : x ∈ l := by
  rw [orderHooks] at h
  rcases List.mem_append.mp h with h | h
  · exact List.mem_of_mem_filter (mem_sortHooksByOrder.mp h)
  · exact List.mem_of_mem_filter h

/-- Every hook that survives discovery passed class_validation and the
overridable validate step: its is_valid flag was computed true. -/
theorem mem_processClasses_valid {ctx : Ctx} {classes : List HookClass}
    {h : Hook} (hm : h ∈ (processClasses ctx classes).1) :
    classValidation h.cls ctx = true ∧ h.cls.validateResult = true := by
  induction classes with
  | nil => simp [processClasses] at hm
  | cons c rest ih =>
    simp only [processClasses] at hm
    cases hcr : c.ctorRaises with
    | true =>
      rw [hcr] at hm
      simp only [if_true] at hm
      exact ih hm
    | false =>
      rw [hcr] at hm
      simp only [Bool.false_eq_true, if_false] at hm
      cases hv : (initHook c ctx).isValid with
      | false =>
        rw [hv] at hm
        simp only [Bool.not_false, if_true] at hm
        exact ih hm
      | true =>
        rw [hv] at hm
        simp only [Bool.not_true, Bool.false_eq_true, if_false] at hm
        cases hab : c.isAbstract with
        | true =>
          rw [hab] at hm
          simp only [if_true] at hm
          exact ih hm
        | false =>
          rw [hab] at hm
          simp only [Bool.false_eq_true, if_false, List.mem_cons] at hm
          rcases hm with hm | hm
          · subst hm
            exact (Bool.and_eq_true _ _).mp hv
          · exact ih hm

/-- A class whose constructor completes is recorded as instantiated by
discovery whenever it occurs among the scanned classes. -/
theorem mem_processClasses_snd {ctx : Ctx} {classes : List HookClass}
    {cls : HookClass} (hcr : cls.ctorRaises = false) (hm : cls ∈ classes) :
    cls ∈ (processClasses ctx classes).2 := by
  induction classes with
  | nil => cases hm
  | cons c rest ih =>
    rcases List.mem_cons.mp hm with he | hm2
    · subst he
      simp only [processClasses, hcr]
      cases hv : (initHook cls ctx).isValid <;>
        cases hab : cls.isAbstract <;>
        simp
    · simp only [processClasses]
      cases hcrc : c.ctorRaises with
      | true => simpa using ih hm2
      | false =>
        cases hv : (initHook c ctx).isValid <;>
          cases hab : c.isAbstract <;>
          simp [ih hm2]

/-- C3 counterexample: under ctx0 the class filteredCls fails its
non-empty host filter (first conjunct), yet discovery constructs an
instance of it — hook = klass(self) runs for every scanned class and only
afterwards is the is_valid flag, computed inside the constructor, used to
drop the hook from the runnable list (second and third conjuncts).  This
refutes the claim that for such a class no instance is ever constructed. -/
theorem claim_C3_counterexample :
    classValidation filteredCls ctx0 = false ∧
    (processClasses ctx0 [filteredCls]).2 = [filteredCls] ∧
    (processClasses ctx0 [filteredCls]).1 = [] := by
  decide

/-- C3 amended: a hook class failing any of its non-empty static filters
never appears behind any hook of the runnable lists (it is dropped before
execution) — but, contrary to the claim, an instance of it is constructed
during discovery whenever its constructor completes, because is_valid is
computed by the constructor and checked only after construction. -/
theorem claim_C3 (ctx : Ctx) (classes : List HookClass) (cls : HookClass)
    (hfail : classValidation cls ctx = false) :
    (∀ h ∈ (processClasses ctx classes).1, h.cls ≠ cls) ∧
    (∀ h ∈ orderHooks (processClasses ctx classes).1, h.cls ≠ cls) ∧
    (cls.ctorRaises = false → cls ∈ classes →
      cls ∈ (processClasses ctx classes).2) := by
  have key : ∀ h ∈ (processClasses ctx classes).1, h.cls ≠ cls := by
    intro h hm heq
    have hv := (mem_processClasses_valid hm).1
    rw [heq, hfail] at hv
    exact Bool.false_ne_true hv
  exact ⟨key, fun h hm => key h (mem_orderHooks hm),
    fun hcr hmem => mem_processClasses_snd hcr hmem⟩

/-- Witness for C3 at the concrete filtered class. -/
theorem claim_C3_witness :
    (∀ h ∈ (processClasses ctx0 [filteredCls]).1, h.cls ≠ filteredCls) ∧
    filteredCls ∈ (processClasses ctx0 [filteredCls]).2 := by
  have h := claim_C3 ctx0 [filteredCls] filteredCls (by decide)
  exact ⟨h.1, h.2.2 (by decide) (by decide)⟩

theorem insertHook_pairwise {h : Hook} {l : List Hook}
    (hs : l.Pairwise (fun a b => hookOrder a ≤ hookOrder b)) :
    (insertHook h l).Pairwise (fun a b => hookOrder a ≤ hookOrder b) := by
  induction l with
  | nil => simp [insertHook]
  | cons a rest ih =>
    rw [List.pairwise_cons] at hs
    by_cases hc : hookOrder a ≤ hookOrder h
    · simp only [insertHook, if_pos hc]
      rw [List.pairwise_cons]
      refine ⟨?_, ih hs.2⟩
      intro b hb
      rcases mem_insertHook.mp hb with rfl | hb
      · exact hc
      · exact hs.1 b hb
    · simp only [insertHook, if_neg hc]
      rw [List.pairwise_cons]
      refine ⟨?_, List.pairwise_cons.mpr hs⟩
      intro b hb
      rcases List.mem_cons.mp hb with rfl | hb
      · exact le_of_lt (lt_of_not_le hc)
      · exact le_trans (le_of_lt (lt_of_not_le hc)) (hs.1 b hb)

theorem sortHooksByOrder_pairwise (l : List Hook) :
    (sortHooksByOrder l).Pairwise (fun a b => hookOrder a ≤ hookOrder b) := by
  have main : ∀ acc : List Hook,
      acc.Pairwise (fun a b => hookOrder a ≤ hookOrder b) →
      (l.foldl (fun acc h => insertHook h acc) acc).Pairwise
        (fun a b => hookOrder a ≤ hookOrder b) := by
    induction l with
    | nil => intro acc hacc; simpa using hacc
    | cons a rest ih =>
      intro acc hacc
      exact ih _ (insertHook_pairwise hacc)
  exact main [] (by simp)

theorem filter_insertHook (h : Hook) (l : List Hook) (k : Int)
    (hs : l.Pairwise (fun a b => hookOrder a ≤ hookOrder b)) :
    (insertHook h l).filter (fun x => hookOrder x == k) =
      l.filter (fun x => hookOrder x == k)
        ++ if hookOrder h == k then [h] else [] := by
  induction l with
  | nil =>
    simp only [insertHook, List.filter_nil, List.nil_append]
    by_cases hh : (hookOrder h == k) = true <;> simp [List.filter_cons, hh]
  | cons a rest ih =>
    rw [List.pairwise_cons] at hs
    by_cases hc : hookOrder a ≤ hookOrder h
    · simp only [insertHook, if_pos hc, List.filter_cons]
      rw [ih hs.2]
      by_cases ha : (hookOrder a == k) = true <;> simp [ha]
    · simp only [insertHook, if_neg hc, List.filter_cons]
      by_cases hh : (hookOrder h == k) = true
      · have hk : hookOrder h = k := by simpa using hh
        have hrest : ∀ b ∈ a :: rest, ¬((hookOrder b == k) = true) := by
          intro b hb hbk
          have hbk2 : hookOrder b = k := by simpa using hbk
          have hab : hookOrder h < hookOrder b := by
            rcases List.mem_cons.mp hb with rfl | hb2
            · exact lt_of_not_le hc
            · exact lt_of_lt_of_le (lt_of_not_le hc) (hs.1 b hb2)
          rw [hk, hbk2] at hab
          exact lt_irrefl k hab
        have hanek : ¬(hookOrder a = k) := by
          intro he
          exact hrest a (List.mem_cons_self a rest) (by simpa using he)
        have hfil2 : rest.filter (fun x => hookOrder x == k) = [] := by
          rw [List.filter_eq_nil_iff]
          intro b hb
          exact hrest b (List.mem_cons_of_mem a hb)
        simp [hh, List.filter_cons, hanek, hfil2]
      · simp [hh, List.filter_cons]

theorem sortHooksByOrder_stable (l : List Hook) (k : Int) :
    (sortHooksByOrder l).filter (fun x => hookOrder x == k) =
      l.filter (fun x => hookOrder x == k) := by
  have main : ∀ acc : List Hook,
      acc.Pairwise (fun a b => hookOrder a ≤ hookOrder b) →
      (l.foldl (fun acc h => insertHook h acc) acc).filter
          (fun x => hookOrder x == k) =
        acc.filter (fun x => hookOrder x == k)
          ++ l.filter (fun x => hookOrder x == k) := by
    induction l with
    | nil => intro acc hacc; simp
    | cons a rest ih =>
      intro acc hacc
      simp only [List.foldl_cons]
      rw [ih _ (insertHook_pairwise hacc),
        filter_insertHook a acc k hacc, List.filter_cons]
      by_cases ha : (hookOrder a == k) = true <;> simp [ha]
  simpa using main [] (by simp)

/-- C4: each discovered hook list consists of the hooks that declare an
order, stably sorted ascending by it (sorted as stated by the Pairwise
conjuncts; ties and relative order kept as discovered, as stated by the
filter-stability conjuncts), followed by the hooks without declared order
in discovery order; run_prelaunch_hooks then executes the prelaunch list
exactly in that sequence. -/
theorem claim_C4 (ctx : Ctx) (preC postC : List HookClass)
    (hclean : ∀ x ∈ discoveredPre ctx preC, x.cls.execRaises = false) :
    (discoveredPre ctx preC =
      sortHooksByOrder
          ((processClasses ctx preC).1.filter (fun h => h.cls.order.isSome))
        ++ (processClasses ctx preC).1.filter
          (fun h => h.cls.order.isNone)) ∧
    (discoveredPost ctx postC =
      sortHooksByOrder
          ((processClasses ctx postC).1.filter (fun h => h.cls.order.isSome))
        ++ (processClasses ctx postC).1.filter
          (fun h => h.cls.order.isNone)) ∧
    ((sortHooksByOrder ((processClasses ctx preC).1.filter
        (fun h => h.cls.order.isSome))).Pairwise
      (fun a b => hookOrder a ≤ hookOrder b)) ∧
    (∀ k : Int,
      (sortHooksByOrder ((processClasses ctx preC).1.filter
          (fun h => h.cls.order.isSome))).filter
        (fun x => hookOrder x == k) =
      ((processClasses ctx preC).1.filter
          (fun h => h.cls.order.isSome)).filter
        (fun x => hookOrder x == k)) ∧
    ((sortHooksByOrder ((processClasses ctx postC).1.filter
        (fun h => h.cls.order.isSome))).Pairwise
      (fun a b => hookOrder a ≤ hookOrder b)) ∧
    (∀ k : Int,
      (sortHooksByOrder ((processClasses ctx postC).1.filter
          (fun h => h.cls.order.isSome))).filter
        (fun x => hookOrder x == k) =
      ((processClasses ctx postC).1.filter
          (fun h => h.cls.order.isSome)).filter
        (fun x => hookOrder x == k)) ∧
    ((runPrelaunchHooks ctx preC postC initialLaunchState).1.executed =
      (discoveredPre ctx preC).map (fun x => x.cls.name)) := by
  refine ⟨rfl, rfl, sortHooksByOrder_pairwise _,
    fun k => sortHooksByOrder_stable _ k,
    sortHooksByOrder_pairwise _,
    fun k => sortHooksByOrder_stable _ k, ?_⟩
  rw [runPrelaunchHooks_fresh_ok ctx preC postC initialLaunchState
    rfl rfl rfl hclean]
  simp [initialLaunchState]

/-- Witness for C4: classes discovered as order 2, unordered, order 1
execute as order 1, order 2, unordered. -/
theorem claim_C4_witness :
    (runPrelaunchHooks ctx0 [clsO2, clsU, clsO1] []
      initialLaunchState).1.executed = ["hookO1", "hookO2", "hookU"] := by
  have h := claim_C4 ctx0 [clsO2, clsU, clsO1] [] (by decide)
  rw [h.2.2.2.2.2.2]
  rfl

/-- An entry reported alive with a recorded start time implies a live
process whose creation time is within the 1.0 tolerance of it. -/
theorem alive_close {sys : PsSys} {pid : Nat} {exe : Option String}
    {st : ℚ}
    (h : isProcessRunningPsutils sys pid exe (some st) = some true) :
    ∃ proc ct, sys.lookup pid = .ok proc ∧ proc.createTime = some ct ∧
      |ct - st| ≤ 1 := by
  cases hlk : sys.lookup pid with
  | noSuch => simp [isProcessRunningPsutils, hlk] at h
  | raises => simp [isProcessRunningPsutils, hlk] at h
  | ok proc =>
    cases hct : proc.createTime with
    | none => simp [isProcessRunningPsutils, hlk, hct] at h
    | some ct =>
      by_cases hgt : 1 < |ct - st|
      · simp [isProcessRunningPsutils, hlk, hct, hgt] at h
      · exact ⟨proc, ct, rfl, hct, not_lt.mp hgt⟩

/-- C7 counterexample: the tolerance is 1.0, so two recorded entries that
share pid 5 but have distinct start times 10 and 10.5 are both reported
alive against sysCE, whose single live process has pid 5 with creation
time 10, matching the first entry exactly.  This refutes the consequence
drawn in the claim that at most one of the two entries is reported
alive. -/
theorem claim_C7_counterexample :
    ((10 : ℚ) ≠ 21 / 2) ∧
    isProcessRunningPsutils sysCE 5 none (some 10) = some true ∧
    isProcessRunningPsutils sysCE 5 none (some (21 / 2)) = some true := by
  have h10 : ¬((1 : ℚ) < |(10 : ℚ) - 10|) := by
    rw [not_lt, abs_le]
    norm_num
  have h105 : ¬((1 : ℚ) < |(10 : ℚ) - 21 / 2|) := by
    rw [not_lt, abs_le]
    norm_num
  refine ⟨by norm_num, ?_, ?_⟩ <;>
    simp [isProcessRunningPsutils, sysCE, psProcCE, finalExeCheck, h10, h105]

/-- C7 amended: with a recorded start time, the rich liveness check
reports a pid dead whenever the OS creation time differs from the recorded
time by more than the 1.0 tolerance; consequently two entries sharing a
PID whose recorded start times differ by more than twice the tolerance are
never both reported alive.  (The claim drew that consequence for any two
different start times; that fails for times within the tolerance band.) -/
theorem claim_C7 (sys : PsSys) (pid : Nat) :
    (∀ (exe : Option String) (st ct : ℚ) (proc : PsProc),
      sys.lookup pid = .ok proc → proc.createTime = some ct →
      1 < |ct - st| →
      isProcessRunningPsutils sys pid exe (some st) = some false) ∧
    (∀ (exe1 exe2 : Option String) (st1 st2 : ℚ), 2 < |st1 - st2| →
      ¬(isProcessRunningPsutils sys pid exe1 (some st1) = some true ∧
        isProcessRunningPsutils sys pid exe2 (some st2) = some true)) := by
  constructor
  · intro exe st ct proc hlk hct hgt
    simp [isProcessRunningPsutils, hlk, hct, hgt]
  · rintro exe1 exe2 st1 st2 hgt ⟨h1, h2⟩
    obtain ⟨proc1, ct1, hlk1, hct1, hd1⟩ := alive_close h1
    obtain ⟨proc2, ct2, hlk2, hct2, hd2⟩ := alive_close h2
    rw [hlk1] at hlk2
    cases hlk2
    rw [hct1] at hct2
    cases hct2
    have htri : |st1 - st2| ≤ |st1 - ct1| + |ct1 - st2| :=
      abs_sub_le st1 ct1 st2
    rw [abs_sub_comm st1 ct1] at htri
    linarith

/-- Witness for C7: recorded time 13 against creation time 10 at pid 5. -/
theorem claim_C7_witness :
    isProcessRunningPsutils sysCE 5 none (some 13) = some false :=
  (claim_C7 sysCE 5).1 none 13 10 psProcCE rfl rfl
    (by rw [lt_abs]; norm_num)

/-- C8 counterexample: on sysC8 every rich per-process lookup raises while
the bare pid_exists probe reports the pid occupied; the batch check then
reports the entry alive, not dead — an inspection failure degrades to the
pid_exists fallback rather than directly to not-running as the claim
states. -/
theorem claim_C8_counterexample :
    (sysC8.lookup 5 = .raises) ∧
    checkProcessesRunningPsutil sysC8
        [{ pid := 5, executable := none, startTime := none }] =
      [(5, true)] := by
  exact ⟨rfl, rfl⟩

/-- C8 amended: the psutil-tier batch check never lets an exception escape
and yields exactly one result per entry, computed from that entry alone
(first conjunct); an entry whose rich lookup raises degrades to the bare
pid_exists fallback and is reported dead exactly when that fallback raises
as well or reports the pid absent (second conjunct); an entry depends on
the inspected system only through its own pid, so a failure on one entry
leaves every other entry unaffected (third conjunct). -/
theorem claim_C8 (sys sys2 : PsSys) (triplets : List ProcessIdTriplet)
    (t : ProcessIdTriplet) :
    (checkProcessesRunningPsutil sys triplets =
      triplets.map (fun x => (x.pid, checkSingle sys x))) ∧
    (sys.lookup t.pid = .raises →
      checkSingle sys t = (sys.pidExists t.pid).getD false) ∧
    (sys.lookup t.pid = sys2.lookup t.pid →
      sys.pidExists t.pid = sys2.pidExists t.pid →
      checkSingle sys t = checkSingle sys2 t) := by
  refine ⟨rfl, ?_, ?_⟩
  · intro hr
    simp only [checkSingle, isProcessRunningPsutils, hr]
    cases hpe : sys.pidExists t.pid <;> simp
  · intro hl hp
    simp only [checkSingle, isProcessRunningPsutils, hl, hp]

/-- Witness for C8 at sysC8, where the fallback reports the pid alive. -/
theorem claim_C8_witness :
    checkSingle sysC8 { pid := 7, executable := none, startTime := none }
      = true := by
  have h := (claim_C8 sysC8 sysC8 []
    { pid := 7, executable := none, startTime := none }).2.1 rfl
  rw [h]
  rfl

/-- C9 evaluated at the failing input, plus the general file-preservation
facts: deleting by hash removes exactly that record and reports success,
and delete_inactive_processes removes exactly the record whose computed
active flag is false and returns the count — but the output-capture files
remain untouched in both cases and for every input: no code path of
delete_process_info or delete_inactive_processes (nor any caller in the
repository) removes them, although the claim, the monitor UI confirmation
dialog and its docstrings promise their removal. -/
theorem claim_C9 :
    ((deleteProcessInfo regC9 (getProcessInfoHash recDead)).1.rows =
      [(getProcessInfoHash recActive, recActive)]) ∧
    ((deleteProcessInfo regC9 (getProcessInfoHash recDead)).2 = true) ∧
    ((deleteProcessInfo regC9 (getProcessInfoHash recDead)).1.files =
      ["outA.txt", "outB.txt"]) ∧
    ((deleteInactiveProcesses sysCE regC9).1.rows =
      [(getProcessInfoHash recActive, recActive)]) ∧
    ((deleteInactiveProcesses sysCE regC9).2 = 1) ∧
    ((deleteInactiveProcesses sysCE regC9).1.files =
      ["outA.txt", "outB.txt"]) ∧
    (∀ (reg : Registry) (h : String),
      (deleteProcessInfo reg h).1.files = reg.files) ∧
    (∀ (sys : PsSys) (reg : Registry),
      (deleteInactiveProcesses sys reg).1.files = reg.files) := by
  refine ⟨rfl, rfl, rfl, rfl, rfl, rfl, fun reg h => rfl, ?_⟩
  intro sys reg
  simp only [deleteInactiveProcesses]
  split <;> rfl

/-- C10: the identity hash key is the delimiter-free concatenation of
name, pid, executable name and start time; the records named app1 with
pid 2 and app with pid 12, neither with an extractable executable name nor
a start time, share the key app12 and hence the SHA-256 hash, and storing
the second record overwrites the first through the INSERT OR REPLACE
upsert. -/
theorem claim_C10 :
    procInfoA.name ≠ procInfoB.name ∧
    procInfoA.pid ≠ procInfoB.pid ∧
    processInfoKey procInfoA = "app12" ∧
    processInfoKey procInfoB = "app12" ∧
    getProcessInfoHash procInfoA = getProcessInfoHash procInfoB ∧
    ((storeProcessInfo (storeProcessInfo emptyRegistry procInfoA)
        procInfoB).rows =
      [(getProcessInfoHash procInfoA, procInfoB)]) ∧
    (getProcessInfo
        (storeProcessInfo (storeProcessInfo emptyRegistry procInfoA)
          procInfoB)
        (getProcessInfoHash procInfoA) = some procInfoB) := by
  exact ⟨by decide, by decide, rfl, rfl, rfl, rfl, rfl⟩

end Ayon
